import Mathlib

/-!
Shallow embedding of the keyboard-input subsystem of the repository:
`src/core/input_handler.py` (classes `InputHandler`, `NavigationHelper`) and
`src/core/keyboard_mapper.py` (class `KeyboardMapper`).

Python dictionaries are modelled as insertion-ordered association lists
(`dictLookup` / `dictInsert` / `dictErase` / `dictUpdate` mirror `d.get`,
`d[k] = v`, `del d[k]` and `d.update`).  `KeyboardMapper.mappings` maps preset
names to *dict objects*; to be faithful to Python's aliasing semantics the
mapper state carries an explicit object heap (`heap : List Dict`) and the
preset table stores references (indices) into it.  `dict.copy()` allocates a
fresh reference holding an equal value.

Callbacks of `InputHandler` are modelled by `Cb`: an identifier plus the
outcome of invoking the callback (`Except.ok` = returns normally,
`Except.error` = raises).  `handle_key` is a total Lean function returning the
Python return value together with the list of callback identifiers invoked;
its totality embeds the `try/except` at the dispatch boundary (a raising
callback never propagates out of `handle_key`).
-/

namespace Touchline

/-! ## Association-list model of Python dict -/

/-- Python `d.get(k)` on an insertion-ordered association list. -/
def dictLookup {α : Type} (d : List (String × α)) (k : String) : Option α :=
  match d with
  | [] => none
  | (k0, v) :: rest => if k0 = k then some v else dictLookup rest k

/-- Python `d[k] = v`: replace the first entry with key `k`, or append a new entry. -/
def dictInsert {α : Type} (d : List (String × α)) (k : String) (v : α) :
    List (String × α) :=
  match d with
  | [] => [(k, v)]
  | (k0, v0) :: rest =>
      if k0 = k then (k0, v) :: rest else (k0, v0) :: dictInsert rest k v

/-- Python `del d[k]`: remove the first entry with key `k`. -/
def dictErase {α : Type} (d : List (String × α)) (k : String) :
    List (String × α) :=
  match d with
  | [] => []
  | (k0, v0) :: rest => if k0 = k then rest else (k0, v0) :: dictErase rest k

/-- Python `d.update(src)`: insert every entry of `src` into `d`, in order. -/
def dictUpdate {α : Type} (d src : List (String × α)) : List (String × α) :=
  match src with
  | [] => d
  | (k, v) :: rest => dictUpdate (dictInsert d k v) rest

/-! ## Python string primitives

`str.lower` and `str.split` are modelled by structural recursion over the
character list, matching Python's semantics (per-character lower-casing;
splitting keeps empty tokens, and splitting the empty string yields one
empty token). -/

/-- Python `str.lower()`, per character. -/
def pyLower (s : String) : String := String.mk (s.toList.map Char.toLower)

/-- Python `str.split(sep)` for a one-character separator, on char lists. -/
def splitOnChar (c : Char) : List Char → List (List Char)
  | [] => [[]]
  | ch :: rest =>
      if ch = c then [] :: splitOnChar c rest
      else
        match splitOnChar c rest with
        | [] => [[ch]]
        | g :: gs => (ch :: g) :: gs

/-- Python `s.split(c)` as a `String` function. -/
def pySplit (s : String) (c : Char) : List String :=
  (splitOnChar c s.toList).map String.mk

/-! ## InputHandler (src/core/input_handler.py, lines 11-139) -/

deriving instance DecidableEq for Except

/-- A bound callback: an identifier and the outcome of invoking it.
`Except.error msg` models the callback raising an exception. -/
structure Cb where
  id : Nat
  result : Except String Unit
deriving DecidableEq

/-- The state of `InputHandler`: the `hotkeys` dict (key → callback). -/
structure InputHandler where
  hotkeys : List (String × Cb)
deriving DecidableEq

/-- A freshly constructed handler (no hotkeys file): `self.hotkeys = {}`. -/
def InputHandler.empty : InputHandler := ⟨[]⟩

/-- Source `InputHandler.bind`: `self.hotkeys[key.lower()] = callback`.
The `action` argument is only printed by the source and does not enter the
state. -/
def InputHandler.bind (h : InputHandler) (key : String) (action : String)
    (cb : Cb) : InputHandler :=
  let _ := action
  ⟨dictInsert h.hotkeys (pyLower key) cb⟩

/-- Source `InputHandler.handle_key`: lower-case the key, look it up, invoke the
callback inside `try/except`.  Returns the Python boolean result together
with the list of callback identifiers that were invoked.  The source returns
`True` after a normal callback return and `False` both when the callback
raises (the `except` branch) and when the key is unbound. -/
def InputHandler.handle_key (h : InputHandler) (key : String) :
    Bool × List Nat :=
  match dictLookup h.hotkeys (pyLower key) with
  | some cb =>
      match cb.result with
      | Except.ok _ => (true, [cb.id])
      | Except.error _ => (false, [cb.id])
  | none => (false, [])

/-- Source `InputHandler.parse_key_combo`: lower-case, split on `'+'`; one token
gives `([], token)`, otherwise all tokens but the last are the modifiers and
the last token is the key. -/
def parse_key_combo (key_string : String) : List String × String :=
  let parts := pySplit (pyLower key_string) '+'
  if parts.length = 1 then
    ([], parts.headD "")
  else
    (parts.dropLast, parts.getLastD "")

/-! ## NavigationHelper (src/core/input_handler.py, lines 142-214) -/

/-- The state of `NavigationHelper`: the item list and the current index.
The index is an integer (Python `int`); `%` below is `Int.emod`, which agrees
with Python `%` for the positive moduli used by the source. -/
structure NavigationHelper where
  items : List String
  current_index : Int
deriving DecidableEq

/-- Source `NavigationHelper.__init__`: store the items, index 0. -/
def NavigationHelper.mk0 (items : List String) : NavigationHelper :=
  ⟨items, 0⟩

/-- Source `NavigationHelper.get_current`: the item at the current index when the
list is non-empty and the index is in range, else `""`. -/
def NavigationHelper.get_current (s : NavigationHelper) : String :=
  if s.items ≠ [] ∧ 0 ≤ s.current_index ∧
      s.current_index < (s.items.length : Int) then
    s.items.getD s.current_index.toNat ""
  else ""

/-- Source `NavigationHelper.get_current_index`. -/
def NavigationHelper.get_current_index (s : NavigationHelper) : Int :=
  s.current_index

/-- Source `NavigationHelper.next`: advance modulo the length on a non-empty list
and return the new current item; on an empty list return `""` unchanged. -/
def NavigationHelper.next (s : NavigationHelper) : NavigationHelper × String :=
  if s.items ≠ [] then
    let s1 : NavigationHelper :=
      ⟨s.items, (s.current_index + 1) % (s.items.length : Int)⟩
    (s1, s1.get_current)
  else (s, "")

/-- Source `NavigationHelper.previous`: step back modulo the length on a non-empty
list and return the new current item; on an empty list return `""`. -/
def NavigationHelper.previous (s : NavigationHelper) :
    NavigationHelper × String :=
  if s.items ≠ [] then
    let s1 : NavigationHelper :=
      ⟨s.items, (s.current_index - 1) % (s.items.length : Int)⟩
    (s1, s1.get_current)
  else (s, "")

/-- Source `NavigationHelper.first`: set the index to 0 unconditionally and return
the current item. -/
def NavigationHelper.first (s : NavigationHelper) :
    NavigationHelper × String :=
  let s1 : NavigationHelper := ⟨s.items, 0⟩
  (s1, s1.get_current)

/-- Source `NavigationHelper.last`: jump to the final index on a non-empty list and
return it; on an empty list return `""` unchanged. -/
def NavigationHelper.last (s : NavigationHelper) :
    NavigationHelper × String :=
  if s.items ≠ [] then
    let s1 : NavigationHelper := ⟨s.items, (s.items.length : Int) - 1⟩
    (s1, s1.get_current)
  else (s, "")

/-- Source `NavigationHelper.set_index`: a validated setter — only mutate when the
list is non-empty and `0 ≤ index < len`, else return `""` unchanged. -/
def NavigationHelper.set_index (s : NavigationHelper) (index : Int) :
    NavigationHelper × String :=
  if s.items ≠ [] ∧ 0 ≤ index ∧ index < (s.items.length : Int) then
    let s1 : NavigationHelper := ⟨s.items, index⟩
    (s1, s1.get_current)
  else (s, "")

/-- Source `NavigationHelper.update_items`: replace the items and reset the index
to 0. -/
def NavigationHelper.update_items (s : NavigationHelper)
    (items : List String) : NavigationHelper :=
  let _ := s
  ⟨items, 0⟩

/-- One public operation of `NavigationHelper`. -/
inductive NavOp where
  | next : NavOp
  | previous : NavOp
  | first : NavOp
  | last : NavOp
  | getCurrent : NavOp
  | getCurrentIndex : NavOp
  | setIndex (i : Int) : NavOp
  | updateItems (l : List String) : NavOp

/-- The state transition of one operation (accessors leave the state as is). -/
def navStep (s : NavigationHelper) : NavOp → NavigationHelper
  | NavOp.next => (s.next).1
  | NavOp.previous => (s.previous).1
  | NavOp.first => (s.first).1
  | NavOp.last => (s.last).1
  | NavOp.getCurrent => s
  | NavOp.getCurrentIndex => s
  | NavOp.setIndex i => (s.set_index i).1
  | NavOp.updateItems l => s.update_items l

/-- Run a sequence of operations. -/
def navRun (s : NavigationHelper) (ops : List NavOp) : NavigationHelper :=
  ops.foldl navStep s

/-- The documented index invariant: `0 ≤ index < length` on a non-empty
list, and `index = 0` on an empty list. -/
def NavInv (s : NavigationHelper) : Prop :=
  (s.items = [] → s.current_index = 0) ∧
  (s.items ≠ [] →
    0 ≤ s.current_index ∧ s.current_index < (s.items.length : Int))

/-! ## KeyboardMapper (src/core/keyboard_mapper.py) -/

/-- A key→action dict (one preset's mappings). -/
abbrev Dict := List (String × String)

/-- The state of `KeyboardMapper`.  `heap` is the store of dict objects;
`presets` maps preset names to references (indices) into `heap`, modelling
`self.mappings`; `current_preset` is the active preset name. -/
structure KeyboardMapper where
  heap : List Dict
  presets : List (String × Nat)
  current_preset : String
deriving DecidableEq

/-- The `'default'` preset installed by `_init_default_mappings`. -/
def default_mappings : Dict :=
  [("up", "navigate_up"), ("down", "navigate_down"),
   ("left", "navigate_left"), ("right", "navigate_right"),
   ("enter", "select"), ("escape", "back"), ("tab", "next_section"),
   ("shift+tab", "previous_section"), ("space", "toggle"),
   ("r", "read_current"), ("s", "save"), ("l", "load"), ("h", "help"),
   ("q", "quit"), ("m", "main_menu"), ("n", "toggle_narration"),
   ("f1", "help"), ("ctrl+s", "save"), ("ctrl+l", "load")]

/-- The `'screen_reader'` preset installed by `_init_default_mappings`. -/
def screen_reader_mappings : Dict :=
  [("up", "navigate_up"), ("down", "navigate_down"),
   ("left", "navigate_left"), ("right", "navigate_right"),
   ("enter", "select"), ("escape", "back"), ("insert+r", "read_current"),
   ("insert+s", "stop_speech"), ("insert+h", "read_heading"),
   ("insert+t", "read_title"), ("ctrl+home", "first_item"),
   ("ctrl+end", "last_item")]

/-- The `'match'` preset installed by `_init_default_mappings`. -/
def match_mappings : Dict :=
  [("space", "pause_match"), ("c", "read_commentary"),
   ("p", "read_possession"), ("t", "read_stats"), ("g", "read_last_goal"),
   ("e", "read_last_event"), ("f", "faster_commentary"),
   ("slower", "slower_commentary"), ("left", "previous_event"),
   ("right", "next_event"), ("escape", "back_to_menu")]

/-- The `'tactics'` preset installed by `_init_default_mappings`. -/
def tactics_mappings : Dict :=
  [("up", "previous_player"), ("down", "next_player"),
   ("left", "previous_position"), ("right", "next_position"),
   ("enter", "select_player"), ("f", "change_formation"),
   ("r", "read_formation"), ("s", "substitute_menu"),
   ("i", "player_instructions"), ("escape", "back")]

/-- The `'inbox'` preset installed by `_init_default_mappings`. -/
def inbox_mappings : Dict :=
  [("up", "previous_email"), ("down", "next_email"),
   ("enter", "open_email"), ("r", "read_email"), ("d", "delete_email"),
   ("a", "archive_email"), ("escape", "back")]

/-- Source `KeyboardMapper.__init__` with no config file: the five default presets,
each its own dict object, current preset `'default'`. -/
def KeyboardMapper.init : KeyboardMapper :=
  { heap := [default_mappings, screen_reader_mappings, match_mappings,
             tactics_mappings, inbox_mappings]
    presets := [("default", 0), ("screen_reader", 1), ("match", 2),
                ("tactics", 3), ("inbox", 4)]
    current_preset := "default" }

/-- The `preset = preset or self.current_preset` idiom: `None` and the empty
string (both falsy) resolve to the current preset. -/
def KeyboardMapper.resolve (m : KeyboardMapper) (preset : Option String) :
    String :=
  match preset with
  | none => m.current_preset
  | some p => if p = "" then m.current_preset else p

/-- Source `KeyboardMapper.get_mappings`: a copy of the resolved preset's dict, or
`{}` when the preset does not exist.  (`.copy()` of a `Dict[str, str]` is a
value copy, so the returned value is the dict's contents.) -/
def KeyboardMapper.get_mappings (m : KeyboardMapper)
    (preset : Option String) : Dict :=
  match dictLookup m.presets (m.resolve preset) with
  | some r => m.heap.getD r []
  | none => []

/-- Source `KeyboardMapper.get_action`: look the lower-cased key up in the resolved
preset. -/
def KeyboardMapper.get_action (m : KeyboardMapper) (key : String)
    (preset : Option String) : Option String :=
  match dictLookup m.presets (m.resolve preset) with
  | some r => dictLookup (m.heap.getD r []) (pyLower key)
  | none => none

/-- Source `KeyboardMapper.map_key`: create the resolved preset as a fresh empty
dict if absent, then `self.mappings[preset][key.lower()] = action`. -/
def KeyboardMapper.map_key (m : KeyboardMapper) (key : String)
    (action : String) (preset : Option String) : KeyboardMapper :=
  let p := m.resolve preset
  match dictLookup m.presets p with
  | some r =>
      { m with heap :=
          m.heap.set r (dictInsert (m.heap.getD r []) (pyLower key) action) }
  | none =>
      { m with
        heap := m.heap ++ [[(pyLower key, action)]]
        presets := dictInsert m.presets p m.heap.length }

/-- Source `KeyboardMapper.unmap_key`: delete the lower-cased key from the resolved
preset when both the preset and the key exist; otherwise no change. -/
def KeyboardMapper.unmap_key (m : KeyboardMapper) (key : String)
    (preset : Option String) : KeyboardMapper :=
  let p := m.resolve preset
  match dictLookup m.presets p with
  | some r =>
      if (dictLookup (m.heap.getD r []) (pyLower key)).isSome then
        { m with heap := m.heap.set r (dictErase (m.heap.getD r []) (pyLower key)) }
      else m
  | none => m

/-- Source `KeyboardMapper.create_preset`: when a base preset is supplied, truthy
and present, the new preset is bound to a fresh object holding a copy of the
base's dict; otherwise to a fresh empty dict.  In both cases the binding
`self.mappings[name] = ...` replaces any existing binding of `name`. -/
def KeyboardMapper.create_preset (m : KeyboardMapper) (name : String)
    (base_preset : Option String) : KeyboardMapper :=
  match base_preset with
  | some b =>
      if b ≠ "" then
        match dictLookup m.presets b with
        | some r =>
            { m with
              heap := m.heap ++ [m.heap.getD r []]
              presets := dictInsert m.presets name m.heap.length }
        | none =>
            { m with
              heap := m.heap ++ [[]]
              presets := dictInsert m.presets name m.heap.length }
      else
        { m with
          heap := m.heap ++ [[]]
          presets := dictInsert m.presets name m.heap.length }
  | none =>
      { m with
        heap := m.heap ++ [[]]
        presets := dictInsert m.presets name m.heap.length }

/-- The outcome of opening and JSON-parsing a config file, abstracting the
file system: the file may be missing (`FileNotFoundError`), malformed
(`json.JSONDecodeError`), or parse to a preset-name → dict table.  A parsed
JSON object has no duplicate keys. -/
inductive ConfigSource where
  | not_found (msg : String) : ConfigSource
  | decode_error (msg : String) : ConfigSource
  | parsed (presets : List (String × Dict)) : ConfigSource

/-- The per-preset body of the `load_config` merge loop: update the existing
preset's dict in place, or bind the new preset name to the loaded dict. -/
def loadStep (m : KeyboardMapper) (pm : String × Dict) : KeyboardMapper :=
  match dictLookup m.presets pm.1 with
  | some r =>
      { m with heap := m.heap.set r (dictUpdate (m.heap.getD r []) pm.2) }
  | none =>
      { m with
        heap := m.heap ++ [pm.2]
        presets := dictInsert m.presets pm.1 m.heap.length }

/-- Source `KeyboardMapper.load_config`: both exception branches leave the state
untouched; a parsed source is merged preset by preset. -/
def KeyboardMapper.load_config (m : KeyboardMapper) (src : ConfigSource) :
    KeyboardMapper :=
  match src with
  | ConfigSource.not_found _ => m
  | ConfigSource.decode_error _ => m
  | ConfigSource.parsed l => l.foldl loadStep m

/-- Well-formedness of a mapper state, true of every reachable state: every
preset reference points into the heap, no two presets share a reference
(distinct presets are distinct dict objects), and preset names are unique. -/
def KeyboardMapper.WF (m : KeyboardMapper) : Prop :=
  (∀ pr ∈ m.presets, pr.2 < m.heap.length) ∧
  (m.presets.map Prod.snd).Nodup ∧
  (m.presets.map Prod.fst).Nodup

/-! ## Concrete states and operation wrappers used by the claims -/

/-- A callback that raises when invoked. -/
def cbBoom : Cb := ⟨0, Except.error "boom"⟩

/-- A callback that returns normally. -/
def cbOk : Cb := ⟨1, Except.ok ()⟩

/-- A handler with `"x"` bound to the raising callback and `"y"` to the
normal one. -/
def handlerXY : InputHandler :=
  (InputHandler.empty.bind "x" "Explode" cbBoom).bind "y" "Confirm" cbOk

/-- Fold a list of `(key, action, callback)` bindings over a handler. -/
def bindAll (h : InputHandler) (l : List (String × String × Cb)) :
    InputHandler :=
  l.foldl (fun h2 e => h2.bind e.1 e.2.1 e.2.2) h

/-- One mutation of a preset: `map_key` or `unmap_key`. -/
inductive MapperMut where
  | mapK (key action : String) : MapperMut
  | unmapK (key : String) : MapperMut

/-- Apply one mutation to preset `x`. -/
def applyMut (x : String) (m : KeyboardMapper) : MapperMut → KeyboardMapper
  | MapperMut.mapK key action => m.map_key key action (some x)
  | MapperMut.unmapK key => m.unmap_key key (some x)

/-- Apply a sequence of mutations to preset `x`. -/
def applyMuts (x : String) (m : KeyboardMapper) (l : List MapperMut) :
    KeyboardMapper :=
  l.foldl (applyMut x) m

/-- The spec's merge example state: `p1` pre-exists, mapping key `a` to
`old` and key `b` to `keep`. -/
def mapperP1 : KeyboardMapper :=
  ((KeyboardMapper.init.create_preset "p1" none).map_key "a" "old"
    (some "p1")).map_key "b" "keep" (some "p1")

/-! ## Dictionary lemmas -/

theorem dictLookup_insert {α : Type} (d : List (String × α)) (k k' : String)
    (v : α) :
    dictLookup (dictInsert d k v) k' =
      if k = k' then some v else dictLookup d k' := by
  induction d with
  | nil => simp [dictInsert, dictLookup]
  | cons hd tl ih =>
      obtain ⟨k0, v0⟩ := hd
      by_cases h0 : k0 = k
      · subst h0
        simp only [dictInsert, if_pos rfl, dictLookup]
        by_cases h1 : k0 = k' <;> simp [h1]
      · simp only [dictInsert, if_neg h0, dictLookup]
        by_cases h1 : k0 = k'
        · subst h1
          have hk : ¬ (k = k0) := fun h => h0 h.symm
          simp [dictLookup, hk]
        · simp [dictLookup, h1, ih]

theorem dictLookup_eq_none {α : Type} (d : List (String × α)) (k : String) :
    dictLookup d k = none ↔ k ∉ d.map Prod.fst := by
  induction d with
  | nil => simp [dictLookup]
  | cons hd tl ih =>
      obtain ⟨k0, v0⟩ := hd
      by_cases h0 : k0 = k
      · subst h0; simp [dictLookup]
      · have hk : k ≠ k0 := fun h1 => h0 h1.symm
        simp [dictLookup, h0, ih, hk]

theorem dictInsert_of_not_mem {α : Type} (d : List (String × α)) (k : String)
    (v : α) (h : k ∉ d.map Prod.fst) : dictInsert d k v = d ++ [(k, v)] := by
  induction d with
  | nil => simp [dictInsert]
  | cons hd tl ih =>
      obtain ⟨k0, v0⟩ := hd
      simp only [List.map_cons, List.mem_cons] at h
      push_neg at h
      have h0 : ¬ (k0 = k) := fun hh => h.1 hh.symm
      simp [dictInsert, h0, ih h.2]

theorem mem_dictInsert {α : Type} {d : List (String × α)} {k : String}
    {v : α} {pr : String × α} (h : pr ∈ dictInsert d k v) :
    pr ∈ d ∨ pr = (k, v) := by
  induction d with
  | nil =>
      simp only [dictInsert, List.mem_singleton] at h
      exact Or.inr h
  | cons hd tl ih =>
      obtain ⟨k0, v0⟩ := hd
      simp only [dictInsert] at h
      split at h
      · rename_i hc
        rcases List.mem_cons.mp h with h1 | h1
        · exact Or.inr (by rw [h1, hc])
        · exact Or.inl (List.mem_cons_of_mem _ h1)
      · rcases List.mem_cons.mp h with h1 | h1
        · exact Or.inl (by simp [h1])
        · rcases ih h1 with h2 | h2
          · exact Or.inl (List.mem_cons_of_mem _ h2)
          · exact Or.inr h2

theorem dictUpdate_of_disjoint {α : Type} (src : List (String × α)) :
    ∀ d : List (String × α), (src.map Prod.fst).Nodup →
    (∀ k ∈ src.map Prod.fst, k ∉ d.map Prod.fst) →
    dictUpdate d src = d ++ src := by
  induction src with
  | nil => intro d _ _; simp [dictUpdate]
  | cons hd tl ih =>
      intro d hnd hdisj
      obtain ⟨k0, v0⟩ := hd
      simp only [List.map_cons, List.nodup_cons] at hnd
      have hk0 : k0 ∉ d.map Prod.fst := hdisj k0 (by simp)
      simp only [dictUpdate]
      rw [dictInsert_of_not_mem d k0 v0 hk0]
      rw [ih (d ++ [(k0, v0)]) hnd.2 ?_]
      · simp
      · intro k hk
        simp only [List.map_append, List.mem_append, List.map_cons,
          List.map_nil, List.mem_singleton]
        push_neg
        refine ⟨hdisj k (by simp [hk]), ?_⟩
        intro hkk
        exact hnd.1 (hkk ▸ hk)

theorem dictLookup_update {α : Type} (src : List (String × α)) :
    ∀ (d : List (String × α)) (k : String), (src.map Prod.fst).Nodup →
    dictLookup (dictUpdate d src) k =
      (dictLookup src k).or (dictLookup d k) := by
  induction src with
  | nil => intro d k _; simp [dictUpdate, dictLookup]
  | cons hd tl ih =>
      intro d k hnd
      obtain ⟨k0, v0⟩ := hd
      simp only [List.map_cons, List.nodup_cons] at hnd
      simp only [dictUpdate]
      rw [ih (dictInsert d k0 v0) k hnd.2, dictLookup_insert]
      by_cases h0 : k0 = k
      · subst h0
        have hnone : dictLookup tl k0 = none :=
          (dictLookup_eq_none tl k0).2 hnd.1
        simp [dictLookup, hnone]
      · simp [dictLookup, h0]

/-! ## InputHandler lemmas and claims C1, C2 -/

/-- Later bindings of other (lower-cased) keys do not disturb a lookup. -/
theorem bindAll_lookup (l : List (String × String × Cb)) :
    ∀ (h : InputHandler) (key : String), (∀ e ∈ l, pyLower e.1 ≠ key) →
    dictLookup (bindAll h l).hotkeys key = dictLookup h.hotkeys key := by
  induction l with
  | nil => intro h key _; rfl
  | cons e tl ih =>
      intro h key hl
      show dictLookup (bindAll (h.bind e.1 e.2.1 e.2.2) tl).hotkeys key = _
      rw [ih (h.bind e.1 e.2.1 e.2.2) key
        (fun e2 he2 => hl e2 (List.mem_cons_of_mem _ he2))]
      simp [InputHandler.bind, dictLookup_insert,
        hl e (List.mem_cons_self _ _)]

/-- C1, counterexample: in `handlerXY` the key `"x"` is bound to a callback
that raises, yet `handle_key "x"` returns `false`, not `true` as the claim
states (the source's `except` branch ends in `return False`). -/
theorem C1_counterexample :
    dictLookup handlerXY.hotkeys "x" = some cbBoom ∧
    cbBoom.result = Except.error "boom" ∧
    (handlerXY.handle_key "x").1 = false := by
  refine ⟨by decide, rfl, by decide⟩

/-- C1 (amended): if the callback bound to `k` raises, the failure is caught
at the dispatch boundary — `handle_key` still returns a value, namely
`false`, with the raising callback invoked once — and any validly bound key
`k2` whose callback does not raise still dispatches normally (`true`, its
callback invoked once).  The handler state is untouched by dispatch, so the
second conjunct applies to the subsequent call. -/
theorem C1_dispatch_boundary (h : InputHandler) (k : String) (cb : Cb)
    (msg : String) (hbound : dictLookup h.hotkeys (pyLower k) = some cb)
    (hraise : cb.result = Except.error msg) :
    h.handle_key k = (false, [cb.id]) ∧
    ∀ k2 cb2, dictLookup h.hotkeys (pyLower k2) = some cb2 →
      cb2.result = Except.ok () → h.handle_key k2 = (true, [cb2.id]) := by
  constructor
  · simp [InputHandler.handle_key, hbound, hraise]
  · intro k2 cb2 hb2 hok2
    simp [InputHandler.handle_key, hb2, hok2]

/-- Witness for C1: the amended claim at `handlerXY`. -/
theorem C1_dispatch_boundary_witness :
    handlerXY.handle_key "x" = (false, [0]) ∧
    handlerXY.handle_key "y" = (true, [1]) := by
  have h := C1_dispatch_boundary handlerXY "x" cbBoom "boom" (by decide) rfl
  exact ⟨h.1, h.2 "y" cbOk (by decide) rfl⟩

/-- C2: if `bind k a cb` is the most recent binding for `k`'s lower-cased
form (all later bindings are for other lower-cased keys) and `cb` does not
raise, then `handle_key` on any case variant of `k` returns `true` and
invokes exactly `cb`, once; and on a key whose lower-cased form is unbound,
`handle_key` returns `false` and invokes no callback (dispatch never changes
the handler state in either case). -/
theorem C2_bind_dispatch :
    (∀ (h : InputHandler) (k a : String) (cb : Cb)
        (later : List (String × String × Cb)) (k2 : String),
        pyLower k2 = pyLower k →
        (∀ e ∈ later, pyLower e.1 ≠ pyLower k) →
        cb.result = Except.ok () →
        (bindAll (h.bind k a cb) later).handle_key k2 = (true, [cb.id])) ∧
    (∀ (h : InputHandler) (k : String),
        dictLookup h.hotkeys (pyLower k) = none →
        h.handle_key k = (false, [])) := by
  constructor
  · intro h k a cb later k2 hk2 hlater hok
    have hl : dictLookup (bindAll (h.bind k a cb) later).hotkeys (pyLower k2)
        = dictLookup (h.bind k a cb).hotkeys (pyLower k2) := by
      rw [hk2]; exact bindAll_lookup later _ _ hlater
    rw [InputHandler.handle_key, hl, hk2]
    simp [InputHandler.bind, dictLookup_insert, hok]
  · intro h k hnone
    rw [InputHandler.handle_key, hnone]

/-- Witness for C2: `bind "r" "Read" cbOk` then `handle_key "R"` dispatches
once and returns `true`; `handle_key "z"` on the empty handler returns
`false` with no callback invoked. -/
theorem C2_bind_dispatch_witness :
    (bindAll (InputHandler.empty.bind "r" "Read" cbOk) []).handle_key "R"
      = (true, [1]) ∧
    InputHandler.empty.handle_key "z" = (false, []) := by
  refine ⟨C2_bind_dispatch.1 InputHandler.empty "r" "Read" cbOk [] "R"
    (by decide) (by intro e he; cases he) rfl,
    C2_bind_dispatch.2 InputHandler.empty "z" rfl⟩

/-! ## parse_key_combo: claim C3 -/

theorem splitOnChar_ne_nil (c : Char) (l : List Char) :
    splitOnChar c l ≠ [] := by
  induction l with
  | nil => simp [splitOnChar]
  | cons ch rest ih =>
      simp only [splitOnChar]
      split
      · simp
      · split
        · simp
        · simp

theorem pySplit_ne_nil (s : String) (c : Char) : pySplit s c ≠ [] := by
  intro h
  exact splitOnChar_ne_nil c s.toList (List.map_eq_nil_iff.mp h)

theorem dropLast_append_getLastD (l : List String) (h : l ≠ []) :
    l.dropLast ++ [l.getLastD ""] = l := by
  induction l with
  | nil => exact absurd rfl h
  | cons a tl ih =>
      cases tl with
      | nil => rfl
      | cons b tl2 => exact congrArg (a :: ·) (ih (by simp))

/-- C3, counterexample: on `"ctrl+ctrl+s"` the returned modifiers are the
list `["ctrl", "ctrl"]` — the duplicate is *kept*, so the modifiers are not
the de-duplicated set the claim describes. -/
theorem C3_counterexample :
    parse_key_combo "ctrl+ctrl+s" = (["ctrl", "ctrl"], "s") ∧
    ¬ ((parse_key_combo "ctrl+ctrl+s").1.Nodup) := by
  exact ⟨by decide, by decide⟩

/-- C3 (amended): `parse_key_combo` lower-cases its input and splits on
`'+'`; a single token yields `([], token)`, and with two or more tokens the
modifiers are the *list* of all tokens but the last, in order and with
duplicates preserved (not a de-duplicated set), and the base key is the last
token; modifiers and base key together recompose exactly the token list. -/
theorem C3_parse_characterization (s : String) :
    ((pySplit (pyLower s) '+').length = 1 →
      parse_key_combo s = ([], (pySplit (pyLower s) '+').headD "")) ∧
    (2 ≤ (pySplit (pyLower s) '+').length →
      parse_key_combo s = ((pySplit (pyLower s) '+').dropLast,
        (pySplit (pyLower s) '+').getLastD "") ∧
      (parse_key_combo s).1 ++ [(parse_key_combo s).2] =
        pySplit (pyLower s) '+') := by
  constructor
  · intro h1
    simp only [parse_key_combo]
    rw [if_pos h1]
  · intro h2
    have hne : ¬ ((pySplit (pyLower s) '+').length = 1) := by omega
    constructor
    · simp only [parse_key_combo]
      rw [if_neg hne]
    · simp only [parse_key_combo]
      rw [if_neg hne]
      exact dropLast_append_getLastD _ (pySplit_ne_nil _ _)

/-- Witness for C3: a one-token combo and a three-token combo. -/
theorem C3_parse_characterization_witness :
    parse_key_combo "r" = ([], "r") ∧
    parse_key_combo "ctrl+shift+s" = (["ctrl", "shift"], "s") := by
  refine ⟨((C3_parse_characterization "r").1 (by decide)).trans (by decide),
    (((C3_parse_characterization "ctrl+shift+s").2 (by decide)).1).trans
      (by decide)⟩

/-! ## NavigationHelper: claims C4-C7 -/

theorem navInv_mk0 (items : List String) :
    NavInv (NavigationHelper.mk0 items) := by
  constructor
  · intro _; rfl
  · intro hne
    have hlen : 0 < (items.length : Int) := by
      exact_mod_cast List.length_pos.mpr hne
    exact ⟨le_refl 0, hlen⟩

theorem navStep_inv (s : NavigationHelper) (op : NavOp) (h : NavInv s) :
    NavInv (navStep s op) := by
  have hlen : s.items ≠ [] → 0 < (s.items.length : Int) := fun hne => by
    exact_mod_cast List.length_pos.mpr hne
  cases op with
  | next =>
      simp only [navStep, NavigationHelper.next]
      split
      · rename_i hne
        exact ⟨fun he => absurd he hne,
          fun _ => ⟨Int.emod_nonneg _ (by have := hlen hne; omega),
            Int.emod_lt_of_pos _ (hlen hne)⟩⟩
      · exact h
  | previous =>
      simp only [navStep, NavigationHelper.previous]
      split
      · rename_i hne
        exact ⟨fun he => absurd he hne,
          fun _ => ⟨Int.emod_nonneg _ (by have := hlen hne; omega),
            Int.emod_lt_of_pos _ (hlen hne)⟩⟩
      · exact h
  | first =>
      exact ⟨fun _ => rfl, fun hne => ⟨le_refl 0, hlen hne⟩⟩
  | last =>
      simp only [navStep, NavigationHelper.last]
      split
      · rename_i hne
        have h1 := hlen hne
        exact ⟨fun he => absurd he hne, fun _ =>
          ⟨show (0 : Int) ≤ (s.items.length : Int) - 1 by omega,
           show (s.items.length : Int) - 1 < (s.items.length : Int) by omega⟩⟩
      · exact h
  | getCurrent => exact h
  | getCurrentIndex => exact h
  | setIndex i =>
      simp only [navStep, NavigationHelper.set_index]
      split
      · rename_i hc
        exact ⟨fun he => absurd he hc.1, fun _ => ⟨hc.2.1, hc.2.2⟩⟩
      · exact h
  | updateItems l =>
      refine ⟨fun _ => rfl, fun hne => ⟨le_refl 0, ?_⟩⟩
      show (0 : Int) < (l.length : Int)
      exact_mod_cast List.length_pos.mpr hne

theorem navRun_inv (ops : List NavOp) :
    ∀ s : NavigationHelper, NavInv s → NavInv (navRun s ops) := by
  induction ops with
  | nil => intro s h; exact h
  | cons op tl ih => intro s h; exact ih (navStep s op) (navStep_inv s op h)

/-- C4: every state reachable by any operation sequence satisfies the index
invariant (`0 ≤ index < length` on a non-empty list, `index = 0` on an empty
one), and on an empty list every accessor returns the empty sentinel `""`. -/
theorem C4_navigation_invariant (items : List String) (ops : List NavOp) :
    NavInv (navRun (NavigationHelper.mk0 items) ops) ∧
    (∀ s : NavigationHelper, s.items = [] →
      s.get_current = "" ∧ (s.next).2 = "" ∧ (s.previous).2 = "" ∧
      (s.first).2 = "" ∧ (s.last).2 = "" ∧ ∀ i, (s.set_index i).2 = "") := by
  refine ⟨navRun_inv ops _ (navInv_mk0 items), ?_⟩
  intro s he
  obtain ⟨items2, idx⟩ := s
  simp only at he
  subst he
  refine ⟨?_, ?_, ?_, ?_, ?_, ?_⟩
  · simp [NavigationHelper.get_current]
  · simp [NavigationHelper.next]
  · simp [NavigationHelper.previous]
  · simp [NavigationHelper.first, NavigationHelper.get_current]
  · simp [NavigationHelper.last]
  · intro i; simp [NavigationHelper.set_index]

/-- Witness for C4: a concrete run, and the empty-state sentinel. -/
theorem C4_navigation_invariant_witness :
    NavInv (navRun (NavigationHelper.mk0 ["a", "b"])
      [NavOp.next, NavOp.setIndex 5, NavOp.previous]) ∧
    (NavigationHelper.mk0 []).get_current = "" := by
  exact ⟨(C4_navigation_invariant ["a", "b"]
      [NavOp.next, NavOp.setIndex 5, NavOp.previous]).1,
    ((C4_navigation_invariant [] []).2 (NavigationHelper.mk0 []) rfl).1⟩

theorem navRun_replicate_next (n : Nat) :
    ∀ s : NavigationHelper, s.items ≠ [] →
    0 ≤ s.current_index → s.current_index < (s.items.length : Int) →
    navRun s (List.replicate n NavOp.next) =
      ⟨s.items, (s.current_index + n) % (s.items.length : Int)⟩ := by
  induction n with
  | zero =>
      intro s hne h0 hlt
      show s = _
      rw [show ((0 : Nat) : Int) = 0 from rfl, add_zero,
        Int.emod_eq_of_lt h0 hlt]
  | succ n ih =>
      intro s hne h0 hlt
      have hlen : 0 < (s.items.length : Int) := by omega
      rw [List.replicate_succ]
      show navRun (navStep s NavOp.next) (List.replicate n NavOp.next) = _
      have hstep : navStep s NavOp.next =
          ⟨s.items, (s.current_index + 1) % (s.items.length : Int)⟩ := by
        simp [navStep, NavigationHelper.next, hne]
      rw [hstep]
      rw [ih ⟨s.items, (s.current_index + 1) % (s.items.length : Int)⟩ hne
        (Int.emod_nonneg _ (by omega)) (Int.emod_lt_of_pos _ hlen)]
      have : ((s.current_index + 1) % (s.items.length : Int) + (n : Int)) %
          (s.items.length : Int) =
          (s.current_index + ((n : Nat) + 1 : Nat)) % (s.items.length : Int) := by
        rw [Int.emod_add_emod]
        push_cast
        ring_nf
      rw [this]

theorem navRun_replicate_previous (n : Nat) :
    ∀ s : NavigationHelper, s.items ≠ [] →
    0 ≤ s.current_index → s.current_index < (s.items.length : Int) →
    navRun s (List.replicate n NavOp.previous) =
      ⟨s.items, (s.current_index - n) % (s.items.length : Int)⟩ := by
  induction n with
  | zero =>
      intro s hne h0 hlt
      show s = _
      rw [show ((0 : Nat) : Int) = 0 from rfl, sub_zero,
        Int.emod_eq_of_lt h0 hlt]
  | succ n ih =>
      intro s hne h0 hlt
      have hlen : 0 < (s.items.length : Int) := by omega
      rw [List.replicate_succ]
      show navRun (navStep s NavOp.previous) (List.replicate n NavOp.previous) = _
      have hstep : navStep s NavOp.previous =
          ⟨s.items, (s.current_index - 1) % (s.items.length : Int)⟩ := by
        simp [navStep, NavigationHelper.previous, hne]
      rw [hstep]
      rw [ih ⟨s.items, (s.current_index - 1) % (s.items.length : Int)⟩ hne
        (Int.emod_nonneg _ (by omega)) (Int.emod_lt_of_pos _ hlen)]
      have : ((s.current_index - 1) % (s.items.length : Int) - (n : Int)) %
          (s.items.length : Int) =
          (s.current_index - ((n : Nat) + 1 : Nat)) % (s.items.length : Int) := by
        rw [sub_eq_add_neg, Int.emod_add_emod, sub_eq_add_neg]
        push_cast
        ring_nf
      rw [this]

/-- C5: from index 0 on a non-empty list, `n` calls to `next` put the index
at `n mod length`, and `n` calls to `previous` put it at `(-n) mod length`;
on an empty list `next` and `previous` return the sentinel and the index
stays 0. -/
theorem C5_cyclic_navigation (items : List String) (n : Nat) :
    (items ≠ [] →
      (navRun (NavigationHelper.mk0 items)
          (List.replicate n NavOp.next)).current_index
        = (n : Int) % (items.length : Int) ∧
      (navRun (NavigationHelper.mk0 items)
          (List.replicate n NavOp.previous)).current_index
        = (-(n : Int)) % (items.length : Int)) ∧
    (items = [] →
      (NavigationHelper.mk0 items).next = (NavigationHelper.mk0 items, "") ∧
      (NavigationHelper.mk0 items).previous
        = (NavigationHelper.mk0 items, "") ∧
      (navRun (NavigationHelper.mk0 items)
          (List.replicate n NavOp.next)).current_index = 0 ∧
      (navRun (NavigationHelper.mk0 items)
          (List.replicate n NavOp.previous)).current_index = 0) := by
  constructor
  · intro hne
    have hlen : 0 < (items.length : Int) := by
      exact_mod_cast List.length_pos.mpr hne
    constructor
    · rw [navRun_replicate_next n (NavigationHelper.mk0 items) hne
        (le_refl 0) hlen]
      simp [NavigationHelper.mk0]
    · rw [navRun_replicate_previous n (NavigationHelper.mk0 items) hne
        (le_refl 0) hlen]
      simp [NavigationHelper.mk0]
  · intro he
    subst he
    refine ⟨by simp [NavigationHelper.next, NavigationHelper.mk0],
      by simp [NavigationHelper.previous, NavigationHelper.mk0], ?_, ?_⟩
    · have h := navRun_inv (List.replicate n NavOp.next) _ (navInv_mk0 [])
      have hitems : (navRun (NavigationHelper.mk0 [])
          (List.replicate n NavOp.next)).items = [] := by
        clear h
        induction n with
        | zero => rfl
        | succ n ih =>
            rw [List.replicate_succ]
            show (navRun (navStep (NavigationHelper.mk0 []) NavOp.next)
              (List.replicate n NavOp.next)).items = []
            have : navStep (NavigationHelper.mk0 []) NavOp.next
                = NavigationHelper.mk0 [] := by
              simp [navStep, NavigationHelper.next, NavigationHelper.mk0]
            rw [this]; exact ih
      exact h.1 hitems
    · have h := navRun_inv (List.replicate n NavOp.previous) _ (navInv_mk0 [])
      have hitems : (navRun (NavigationHelper.mk0 [])
          (List.replicate n NavOp.previous)).items = [] := by
        clear h
        induction n with
        | zero => rfl
        | succ n ih =>
            rw [List.replicate_succ]
            show (navRun (navStep (NavigationHelper.mk0 []) NavOp.previous)
              (List.replicate n NavOp.previous)).items = []
            have : navStep (NavigationHelper.mk0 []) NavOp.previous
                = NavigationHelper.mk0 [] := by
              simp [navStep, NavigationHelper.previous, NavigationHelper.mk0]
            rw [this]; exact ih
      exact h.1 hitems

/-- Witness for C5: three `next` steps on a two-element list wrap to index
1, and three `previous` steps to index `(-3) mod 2 = 1`. -/
theorem C5_cyclic_navigation_witness :
    (navRun (NavigationHelper.mk0 ["a", "b"])
        (List.replicate 3 NavOp.next)).current_index = 1 ∧
    (navRun (NavigationHelper.mk0 ["a", "b"])
        (List.replicate 3 NavOp.previous)).current_index = 1 ∧
    (NavigationHelper.mk0 []).next = (NavigationHelper.mk0 [], "") := by
  have h := (C5_cyclic_navigation ["a", "b"] 3).1 (by simp)
  have h2 := (C5_cyclic_navigation [] 3).2 rfl
  exact ⟨h.1.trans (by decide), h.2.trans (by decide), h2.1⟩

/-- C6: `set_index` is a validated setter — out-of-range indices (including
every index when the list is empty) leave the whole state unchanged and
return the sentinel, while in-range indices set the index and return the
item there. -/
theorem C6_set_index_validated (s : NavigationHelper) (i : Int) :
    (¬ (0 ≤ i ∧ i < (s.items.length : Int)) → s.set_index i = (s, "")) ∧
    ((0 ≤ i ∧ i < (s.items.length : Int)) →
      s.set_index i = (⟨s.items, i⟩, s.items.getD i.toNat "")) := by
  constructor
  · intro hout
    rw [NavigationHelper.set_index, if_neg]
    intro hc
    exact hout ⟨hc.2.1, hc.2.2⟩
  · intro hin
    have hne : s.items ≠ [] := by
      intro he
      rw [he] at hin
      simp at hin
      omega
    rw [NavigationHelper.set_index, if_pos ⟨hne, hin.1, hin.2⟩]
    simp [NavigationHelper.get_current, hne, hin.1, hin.2]

/-- Witness for C6: on `["a", "b"]`, `set_index 5` is rejected unchanged and
`set_index 1` is applied. -/
theorem C6_set_index_validated_witness :
    (NavigationHelper.mk0 ["a", "b"]).set_index 5
      = (NavigationHelper.mk0 ["a", "b"], "") ∧
    (NavigationHelper.mk0 ["a", "b"]).set_index 1
      = (⟨["a", "b"], 1⟩, "b") := by
  refine ⟨(C6_set_index_validated (NavigationHelper.mk0 ["a", "b"]) 5).1
      (by decide), ?_⟩
  exact ((C6_set_index_validated (NavigationHelper.mk0 ["a", "b"]) 1).2
      (by decide)).trans (by decide)

/-- C7: `update_items` replaces the item list and unconditionally resets the
current index to 0, whatever the prior state. -/
theorem C7_update_items_resets (s : NavigationHelper) (l : List String) :
    (s.update_items l).items = l ∧
    (s.update_items l).get_current_index = 0 :=
  ⟨rfl, rfl⟩

/-! ## KeyboardMapper lemmas -/

theorem getD_set_ne {α : Type} (l : List α) (i j : Nat) (a d : α)
    (h : i ≠ j) : (l.set i a).getD j d = l.getD j d := by
  simp [List.getD_eq_getElem?_getD, List.getElem?_set_ne h]

theorem getD_set_self {α : Type} (l : List α) (i : Nat) (a d : α)
    (h : i < l.length) : (l.set i a).getD i d = a := by
  simp [List.getD_eq_getElem?_getD, List.getElem?_set_self, h]

theorem getD_append_lt {α : Type} (l l2 : List α) (i : Nat) (d : α)
    (h : i < l.length) : (l ++ l2).getD i d = l.getD i d := by
  simp [List.getD_eq_getElem?_getD, List.getElem?_append_left h]

theorem getD_append_len {α : Type} (l : List α) (a d : α) :
    (l ++ [a]).getD l.length d = a := by
  simp [List.getD_eq_getElem?_getD]

theorem dictLookup_mem {α : Type} {d : List (String × α)} {k : String}
    {v : α} (h : dictLookup d k = some v) : (k, v) ∈ d := by
  induction d with
  | nil => cases h
  | cons hd tl ih =>
      obtain ⟨k0, v0⟩ := hd
      simp only [dictLookup] at h
      split at h
      · rename_i hc
        injection h with h2
        subst hc; subst h2
        exact List.mem_cons_self _ _
      · exact List.mem_cons_of_mem _ (ih h)

theorem nodup_snd_distinct {d : List (String × Nat)}
    (hnd : (d.map Prod.snd).Nodup) {p q : String} {r rq : Nat}
    (hp : (p, r) ∈ d) (hq : (q, rq) ∈ d) (hpq : p ≠ q) : r ≠ rq := by
  intro he
  have h2 := List.inj_on_of_nodup_map hnd hp hq (by simpa using he)
  exact hpq (congrArg Prod.fst h2)

theorem resolve_some (m : KeyboardMapper) (p : String) (hp : p ≠ "") :
    m.resolve (some p) = p := by
  simp [KeyboardMapper.resolve, hp]

/-! ## Claim C8: preset copies are isolated -/

/-- Mutating an existing preset `x` touches only `x`'s dict object: the
preset table is unchanged and every other heap cell keeps its value. -/
theorem applyMut_frame (x : String) (hx : x ≠ "") (m : KeyboardMapper)
    (rx : Nat) (hlx : dictLookup m.presets x = some rx) (mu : MapperMut) :
    (applyMut x m mu).presets = m.presets ∧
    ∀ r, r ≠ rx → (applyMut x m mu).heap.getD r [] = m.heap.getD r [] := by
  cases mu with
  | mapK key action =>
      simp only [applyMut, KeyboardMapper.map_key, resolve_some m x hx, hlx]
      exact ⟨by trivial, fun r hr => getD_set_ne _ _ _ _ _ (fun he => hr he.symm)⟩
  | unmapK key =>
      simp only [applyMut, KeyboardMapper.unmap_key, resolve_some m x hx, hlx]
      split
      · exact ⟨by trivial, fun r hr => getD_set_ne _ _ _ _ _ (fun he => hr he.symm)⟩
      · exact ⟨by trivial, fun _ _ => rfl⟩

/-- Iterated mutations of `x` preserve another preset's binding and dict. -/
theorem applyMuts_frame (x : String) (hx : x ≠ "") (rx rb : Nat)
    (hne : rb ≠ rx) (b : String) (l : List MapperMut) :
    ∀ m : KeyboardMapper, dictLookup m.presets x = some rx →
    dictLookup m.presets b = some rb →
    dictLookup (applyMuts x m l).presets b = some rb ∧
    (applyMuts x m l).heap.getD rb [] = m.heap.getD rb [] := by
  induction l with
  | nil => intro m _ hb; exact ⟨hb, rfl⟩
  | cons mu tl ih =>
      intro m hxm hbm
      have hf := applyMut_frame x hx m rx hxm mu
      have hx2 : dictLookup (applyMut x m mu).presets x = some rx := by
        rw [hf.1]; exact hxm
      have hb2 : dictLookup (applyMut x m mu).presets b = some rb := by
        rw [hf.1]; exact hbm
      have ih2 := ih (applyMut x m mu) hx2 hb2
      exact ⟨ih2.1, ih2.2.trans (hf.2 rb hne)⟩

/-- C8: creating preset `x` from an existing base `b` gives `x` a value-copy
of `b`'s mappings, and any sequence of later `map_key`/`unmap_key` mutations
of `x` leaves `get_mappings b` exactly as it was before the copy. -/
theorem C8_preset_copy_isolation (m : KeyboardMapper) (x b : String)
    (hwf : m.WF) (hxb : x ≠ b) (hx : x ≠ "") (hb : b ≠ "")
    (hbe : (dictLookup m.presets b).isSome) :
    (m.create_preset x (some b)).get_mappings (some x)
      = m.get_mappings (some b) ∧
    ∀ muts : List MapperMut,
      (applyMuts x (m.create_preset x (some b)) muts).get_mappings (some b)
        = m.get_mappings (some b) := by
  obtain ⟨rb, hrb⟩ := Option.isSome_iff_exists.mp hbe
  have hrb_lt : rb < m.heap.length := hwf.1 (b, rb) (dictLookup_mem hrb)
  have hm1 : m.create_preset x (some b) =
      { heap := m.heap ++ [m.heap.getD rb []]
        presets := dictInsert m.presets x m.heap.length
        current_preset := m.current_preset } := by
    simp only [KeyboardMapper.create_preset]
    rw [if_pos hb]
    split
    · rename_i r heq
      rw [hrb] at heq
      injection heq with h2
      subst h2
      rfl
    · rename_i heq
      rw [hrb] at heq
      cases heq
  have hlookup_x : dictLookup (m.create_preset x (some b)).presets x
      = some m.heap.length := by
    rw [hm1]
    show dictLookup (dictInsert m.presets x m.heap.length) x = _
    rw [dictLookup_insert]
    exact if_pos rfl
  have hlookup_b : dictLookup (m.create_preset x (some b)).presets b
      = some rb := by
    rw [hm1]
    show dictLookup (dictInsert m.presets x m.heap.length) b = _
    rw [dictLookup_insert, if_neg hxb]
    exact hrb
  have hmb : m.get_mappings (some b) = m.heap.getD rb [] := by
    simp only [KeyboardMapper.get_mappings, resolve_some m b hb, hrb]
  constructor
  · rw [hmb]
    simp only [KeyboardMapper.get_mappings, resolve_some _ x hx, hlookup_x]
    rw [hm1]
    exact getD_append_len _ _ _
  · intro muts
    have hframe := applyMuts_frame x hx m.heap.length rb
      (Nat.ne_of_lt hrb_lt) b muts (m.create_preset x (some b))
      hlookup_x hlookup_b
    rw [hmb]
    simp only [KeyboardMapper.get_mappings, resolve_some _ b hb, hframe.1]
    rw [hframe.2, hm1]
    exact getD_append_lt _ _ _ _ hrb_lt

/-- Witness for C8: create `"x"` from `"default"` on the freshly
initialised mapper, then remap `"r"` inside `"x"`; `"default"` keeps its
original table. -/
theorem C8_preset_copy_isolation_witness :
    (KeyboardMapper.init.create_preset "x" (some "default")).get_mappings
        (some "x") = KeyboardMapper.init.get_mappings (some "default") ∧
    (applyMuts "x" (KeyboardMapper.init.create_preset "x" (some "default"))
        [MapperMut.mapK "r" "boom", MapperMut.unmapK "q"]).get_mappings
        (some "default") = KeyboardMapper.init.get_mappings (some "default")
    := by
  have h := C8_preset_copy_isolation KeyboardMapper.init "x" "default"
    ⟨by decide, by decide, by decide⟩ (by decide) (by decide) (by decide)
    (by decide)
  exact ⟨h.1, h.2 [MapperMut.mapK "r" "boom", MapperMut.unmapK "q"]⟩

/-! ## Claims C9, C10: load_config and create_preset -/

theorem get_mappings_some (m : KeyboardMapper) (p : String) (hp : p ≠ "")
    (r : Nat) (h : dictLookup m.presets p = some r) :
    m.get_mappings (some p) = m.heap.getD r [] := by
  simp only [KeyboardMapper.get_mappings, resolve_some m p hp, h]

theorem get_mappings_none (m : KeyboardMapper) (p : String) (hp : p ≠ "")
    (h : dictLookup m.presets p = none) : m.get_mappings (some p) = [] := by
  simp only [KeyboardMapper.get_mappings, resolve_some m p hp, h]

theorem loadStep_WF (m : KeyboardMapper) (pm : String × Dict)
    (hwf : m.WF) : (loadStep m pm).WF := by
  obtain ⟨p, mp⟩ := pm
  simp only [loadStep]
  split
  · rename_i r heq
    refine ⟨?_, hwf.2.1, hwf.2.2⟩
    intro pr hpr
    have h2 := hwf.1 pr hpr
    simpa using h2
  · rename_i heq
    have hnotmem : p ∉ m.presets.map Prod.fst := (dictLookup_eq_none _ _).mp heq
    refine ⟨?_, ?_, ?_⟩
    · intro pr hpr
      rcases mem_dictInsert hpr with h2 | h2
      · have h3 := hwf.1 pr h2
        simp only [List.length_append, List.length_cons, List.length_nil]
        omega
      · rw [h2]
        simp
    · rw [dictInsert_of_not_mem _ _ _ hnotmem, List.map_append]
      refine List.Nodup.append hwf.2.1 (List.nodup_singleton _) ?_
      intro a ha hb
      rcases List.mem_map.mp ha with ⟨pr, hpr, he⟩
      have hlt := hwf.1 pr hpr
      simp only [List.map_cons, List.map_nil, List.mem_singleton] at hb
      omega
    · rw [dictInsert_of_not_mem _ _ _ hnotmem, List.map_append]
      refine List.Nodup.append hwf.2.2 (List.nodup_singleton _) ?_
      intro a ha hb
      simp only [List.map_cons, List.map_nil, List.mem_singleton] at hb
      subst hb
      exact hnotmem ha

theorem loadStep_self (m : KeyboardMapper) (p : String) (mp : Dict)
    (hwf : m.WF) (hp : p ≠ "") (hmp : (mp.map Prod.fst).Nodup) :
    (loadStep m (p, mp)).get_mappings (some p)
      = dictUpdate (m.get_mappings (some p)) mp := by
  cases heq : dictLookup m.presets p with
  | some r =>
      have hr_lt : r < m.heap.length := hwf.1 (p, r) (dictLookup_mem heq)
      have h1 : loadStep m (p, mp) =
          { m with heap := m.heap.set r (dictUpdate (m.heap.getD r []) mp) }
          := by
        simp only [loadStep, heq]
      have e1 : (loadStep m (p, mp)).get_mappings (some p) =
          (m.heap.set r (dictUpdate (m.heap.getD r []) mp)).getD r [] := by
        rw [h1]
        exact get_mappings_some _ p hp r heq
      rw [e1, getD_set_self _ _ _ _ hr_lt, get_mappings_some m p hp r heq]
  | none =>
      have h1 : loadStep m (p, mp) =
          { m with heap := m.heap ++ [mp]
                   presets := dictInsert m.presets p m.heap.length } := by
        simp only [loadStep, heq]
      have hl2 : dictLookup (loadStep m (p, mp)).presets p
          = some m.heap.length := by
        rw [h1]
        show dictLookup (dictInsert m.presets p m.heap.length) p = _
        rw [dictLookup_insert]
        exact if_pos rfl
      have e1 : (loadStep m (p, mp)).get_mappings (some p) = mp := by
        rw [get_mappings_some _ p hp _ hl2, h1]
        exact getD_append_len _ _ _
      rw [e1, get_mappings_none m p hp heq,
        dictUpdate_of_disjoint mp [] hmp (by intro k _; simp)]
      simp

theorem loadStep_other (m : KeyboardMapper) (p q : String) (mp : Dict)
    (hwf : m.WF) (hq : q ≠ "") (hpq : q ≠ p) :
    (loadStep m (p, mp)).get_mappings (some q) = m.get_mappings (some q)
    := by
  cases heqp : dictLookup m.presets p with
  | some r =>
      have h1 : loadStep m (p, mp) =
          { m with heap := m.heap.set r (dictUpdate (m.heap.getD r []) mp) }
          := by
        simp only [loadStep, heqp]
      cases heqq : dictLookup m.presets q with
      | some rq =>
          have hner : rq ≠ r := nodup_snd_distinct hwf.2.1
            (dictLookup_mem heqq) (dictLookup_mem heqp) hpq
          have eL : (loadStep m (p, mp)).get_mappings (some q) =
              (m.heap.set r (dictUpdate (m.heap.getD r []) mp)).getD rq []
              := by
            rw [h1]
            exact get_mappings_some _ q hq rq heqq
          rw [eL, get_mappings_some m q hq rq heqq]
          exact getD_set_ne _ _ _ _ _ (fun he => hner he.symm)
      | none =>
          have eL : (loadStep m (p, mp)).get_mappings (some q) = [] := by
            rw [h1]
            exact get_mappings_none _ q hq heqq
          rw [eL, get_mappings_none m q hq heqq]
  | none =>
      have h1 : loadStep m (p, mp) =
          { m with heap := m.heap ++ [mp]
                   presets := dictInsert m.presets p m.heap.length } := by
        simp only [loadStep, heqp]
      have hlq : dictLookup (dictInsert m.presets p m.heap.length) q
          = dictLookup m.presets q := by
        rw [dictLookup_insert]
        exact if_neg (fun he => hpq he.symm)
      cases heqq : dictLookup m.presets q with
      | some rq =>
          have hrq_lt : rq < m.heap.length :=
            hwf.1 (q, rq) (dictLookup_mem heqq)
          have eL : (loadStep m (p, mp)).get_mappings (some q) =
              (m.heap ++ [mp]).getD rq [] := by
            rw [h1]
            exact get_mappings_some _ q hq rq (hlq.trans heqq)
          rw [eL, get_mappings_some m q hq rq heqq]
          exact getD_append_lt _ _ _ _ hrq_lt
      | none =>
          have eL : (loadStep m (p, mp)).get_mappings (some q) = [] := by
            rw [h1]
            exact get_mappings_none _ q hq (hlq.trans heqq)
          rw [eL, get_mappings_none m q hq heqq]

theorem load_foldl_other (l : List (String × Dict)) (q : String)
    (hq : q ≠ "") :
    ∀ m : KeyboardMapper, m.WF → (∀ e ∈ l, e.1 ≠ q) →
    (l.foldl loadStep m).get_mappings (some q) = m.get_mappings (some q)
    := by
  induction l with
  | nil => intro m _ _; rfl
  | cons pm tl ih =>
      intro m hwf hl
      obtain ⟨p, mp⟩ := pm
      show (tl.foldl loadStep (loadStep m (p, mp))).get_mappings (some q) = _
      rw [ih (loadStep m (p, mp)) (loadStep_WF m (p, mp) hwf)
        (fun e he => hl e (List.mem_cons_of_mem _ he))]
      exact loadStep_other m p q mp hwf hq
        (fun he => hl (p, mp) (List.mem_cons_self _ _) he.symm)

theorem load_foldl_merge (src : List (String × Dict)) :
    ∀ m : KeyboardMapper, m.WF → (src.map Prod.fst).Nodup →
    (∀ pd ∈ src, (pd.2.map Prod.fst).Nodup) →
    ∀ p mp, (p, mp) ∈ src → p ≠ "" →
    (src.foldl loadStep m).get_mappings (some p)
      = dictUpdate (m.get_mappings (some p)) mp := by
  induction src with
  | nil => intro m _ _ _ p mp hmem _; cases hmem
  | cons pm tl ih =>
      intro m hwf hnd hdicts p mp hmem hp
      obtain ⟨q, mq⟩ := pm
      simp only [List.map_cons, List.nodup_cons] at hnd
      show (tl.foldl loadStep (loadStep m (q, mq))).get_mappings (some p) = _
      rcases List.mem_cons.mp hmem with h1 | h1
      · rw [Prod.mk.injEq] at h1
        obtain ⟨rfl, rfl⟩ := h1
        rw [load_foldl_other tl p hp (loadStep m (p, mp))
          (loadStep_WF _ _ hwf)
          (fun e he heq2 => hnd.1 (heq2 ▸ List.mem_map_of_mem Prod.fst he))]
        exact loadStep_self m p mp hwf hp
          (hdicts (p, mp) (List.mem_cons_self _ _))
      · have hq_ne : p ≠ q := by
          intro he
          subst he
          exact hnd.1 (List.mem_map_of_mem Prod.fst h1)
        rw [ih (loadStep m (q, mq)) (loadStep_WF _ _ hwf) hnd.2
          (fun pd hpd => hdicts pd (List.mem_cons_of_mem _ hpd)) p mp h1 hp]
        rw [loadStep_other m q p mq hwf hp hq_ne]

/-- C9: a malformed or missing config source leaves the mapper state exactly
as it was; a parsed source merges each source preset's pairs into the
existing preset of that name (creating it if new), where `dictUpdate`
(Python `dict.update`) makes the externally supplied value win per key and
keeps every unmentioned key, as the third conjunct states pointwise. -/
theorem C9_load_config_merge :
    (∀ (m : KeyboardMapper) (msg : String),
      m.load_config (ConfigSource.not_found msg) = m ∧
      m.load_config (ConfigSource.decode_error msg) = m) ∧
    (∀ (m : KeyboardMapper) (src : List (String × Dict)), m.WF →
      (src.map Prod.fst).Nodup →
      (∀ pd ∈ src, (pd.2.map Prod.fst).Nodup) →
      ∀ p mp, (p, mp) ∈ src → p ≠ "" →
        (m.load_config (ConfigSource.parsed src)).get_mappings (some p)
          = dictUpdate (m.get_mappings (some p)) mp) ∧
    (∀ (d mp : Dict) (k : String), (mp.map Prod.fst).Nodup →
      dictLookup (dictUpdate d mp) k
        = (dictLookup mp k).or (dictLookup d k)) := by
  refine ⟨fun m msg => ⟨rfl, rfl⟩, ?_, ?_⟩
  · intro m src hwf hnd hdicts p mp hmem hp
    exact load_foldl_merge src m hwf hnd hdicts p mp hmem hp
  · intro d mp k hnd
    exact dictLookup_update mp d k hnd

/-- Witness for C9: a malformed source is a no-op on the initial mapper, and
loading a source that maps, under preset `p1`, key `a` to `act1`, over the
pre-existing `p1` of `mapperP1`, merges to `a = act1` with `b = keep`
kept. -/
theorem C9_load_config_merge_witness :
    KeyboardMapper.init.load_config (ConfigSource.decode_error "bad")
      = KeyboardMapper.init ∧
    (mapperP1.load_config
        (ConfigSource.parsed [("p1", [("a", "act1")])])).get_mappings
        (some "p1") = [("a", "act1"), ("b", "keep")] := by
  refine ⟨(C9_load_config_merge.1 KeyboardMapper.init "bad").2, ?_⟩
  have h := C9_load_config_merge.2.1 mapperP1 [("p1", [("a", "act1")])]
    ⟨by decide, by decide, by decide⟩ (by decide) (by decide)
    "p1" [("a", "act1")] (by decide) (by decide)
  exact h.trans (by decide)

/-- C10: `create_preset` with the name of an existing preset silently
rebinds that name — afterwards its table is a copy of the base preset's
mappings when a truthy, existing base is given, and empty otherwise
(`None`, empty string, or unknown base); the prior contents do not influence
the result. -/
theorem C10_create_preset_overwrites (m : KeyboardMapper) (name : String)
    (base : Option String) (hname : name ≠ "")
    (hexists : (dictLookup m.presets name).isSome) :
    ((base = none ∨ base = some "" ∨
        (∃ b, base = some b ∧ dictLookup m.presets b = none)) →
      (m.create_preset name base).get_mappings (some name) = []) ∧
    (∀ b, base = some b → b ≠ "" →
      ∀ rb, dictLookup m.presets b = some rb →
      (m.create_preset name base).get_mappings (some name)
        = m.get_mappings (some b)) := by
  have hgen : ∀ d : Dict,
      ({ m with heap := m.heap ++ [d]
                presets := dictInsert m.presets name m.heap.length }
        : KeyboardMapper).get_mappings (some name) = d := by
    intro d
    rw [get_mappings_some _ name hname m.heap.length ?_]
    · exact getD_append_len _ _ _
    · show dictLookup (dictInsert m.presets name m.heap.length) name = _
      rw [dictLookup_insert]
      exact if_pos rfl
  constructor
  · intro hcase
    rcases hcase with h | h | ⟨b, hb, hlook⟩
    · subst h
      exact hgen []
    · subst h
      have h1 : m.create_preset name (some "") =
          { m with heap := m.heap ++ [[]]
                   presets := dictInsert m.presets name m.heap.length } := by
        simp only [KeyboardMapper.create_preset]
        rw [if_neg (by simp)]
      rw [h1]
      exact hgen []
    · subst hb
      by_cases hbe : b = ""
      · subst hbe
        have h1 : m.create_preset name (some "") =
            { m with heap := m.heap ++ [[]]
                     presets := dictInsert m.presets name m.heap.length }
            := by
          simp only [KeyboardMapper.create_preset]
          rw [if_neg (by simp)]
        rw [h1]
        exact hgen []
      · have h1 : m.create_preset name (some b) =
            { m with heap := m.heap ++ [[]]
                     presets := dictInsert m.presets name m.heap.length }
            := by
          simp only [KeyboardMapper.create_preset]
          rw [if_pos hbe]
          split
          · rename_i r heq
            rw [hlook] at heq
            cases heq
          · rfl
        rw [h1]
        exact hgen []
  · intro b hb hbe rb hrb
    subst hb
    have h1 : m.create_preset name (some b) =
        { m with heap := m.heap ++ [m.heap.getD rb []]
                 presets := dictInsert m.presets name m.heap.length } := by
      simp only [KeyboardMapper.create_preset]
      rw [if_pos hbe]
      split
      · rename_i r heq
        rw [hrb] at heq
        injection heq with h2
        subst h2
        rfl
      · rename_i heq
        rw [hrb] at heq
        cases heq
    rw [h1, hgen (m.heap.getD rb []), get_mappings_some m b hbe rb hrb]

/-- Witness for C10: re-creating the pre-existing `"match"` preset empties
it, and re-creating it from `"default"` copies `"default"`'s table. -/
theorem C10_create_preset_overwrites_witness :
    (KeyboardMapper.init.create_preset "match" none).get_mappings
      (some "match") = [] ∧
    (KeyboardMapper.init.create_preset "match"
        (some "default")).get_mappings (some "match")
      = KeyboardMapper.init.get_mappings (some "default") := by
  have h1 := C10_create_preset_overwrites KeyboardMapper.init "match" none
    (by decide) (by decide)
  have h2 := C10_create_preset_overwrites KeyboardMapper.init "match"
    (some "default") (by decide) (by decide)
  exact ⟨h1.1 (Or.inl rfl), h2.2 "default" rfl (by decide) 0 (by decide)⟩

end Touchline
